import Mathlib

/-!
Shallow embedding of the privacy-preserving music-revenue aggregation core:
`src/core/data_encoder.py` (class MusicDataEncoder) and
`src/core/he_engine.py` (class HEEngine).

Real numbers are modelled by ℚ (the Python code uses floats; all the
properties verified here are exact linear/structural facts, so exact
rationals are the faithful idealization).  CKKS plaintext slots are complex
numbers; they are modelled as pairs of rationals.  The external piheaan
library is modelled as an exact scheme: a ciphertext carries the message it
encrypts, homomorphic operations act slotwise, which is the functional
contract the adapter code relies on.
-/

namespace MusicHE

/-- A CKKS plaintext slot: a complex number, as (real, imaginary) parts. -/
structure Cx where
  re : ℚ
  im : ℚ
deriving DecidableEq

/-- Complex addition (what `evaluator.add` performs slotwise). -/
def Cx.add (a b : Cx) : Cx := ⟨a.re + b.re, a.im + b.im⟩

/-- Complex multiplication (what `evaluator.mult_by_const` performs slotwise). -/
def Cx.mul (a b : Cx) : Cx := ⟨a.re * b.re - a.im * b.im, a.re * b.im + a.im * b.re⟩

/-- Python `complex(value)`: embed a real as a complex slot. -/
def Cx.ofReal (v : ℚ) : Cx := ⟨v, 0⟩

/-! ## data_encoder.py : MusicDataEncoder fixed tables -/

/-- Model of `self.genre_mapping` (data_encoder.py lines 18-27), in insertion order. -/
def genre_mapping : List (String × Nat) :=
  [("Pop", 0), ("Hip-Hop", 1), ("Rock", 2), ("Electronic", 3),
   ("R&B", 4), ("Country", 5), ("Jazz", 6), ("Classical", 7)]

/-- Model of `self.period_mapping` (data_encoder.py lines 30-39), in insertion order. -/
def period_mapping : List (String × Nat) :=
  [("2024-Q1", 0), ("2024-Q2", 1), ("2024-Q3", 2), ("2024-Q4", 3),
   ("2023-Q1", 4), ("2023-Q2", 5), ("2023-Q3", 6), ("2023-Q4", 7)]

/-- The entries of `self.normalization_ranges` (data_encoder.py lines
42-55), in insertion order: the declared (min, max) range per field. -/
def normalization_ranges_list : List (String × (ℚ × ℚ)) :=
  [("revenue", (0, 100000000)), ("song_count", (1, 50)),
   ("danceability", (0, 1)), ("energy", (0, 1)), ("valence", (0, 1)),
   ("tempo", (60, 200)), ("acousticness", (0, 1)),
   ("instrumentalness", (0, 1)), ("liveness", (0, 1)),
   ("speechiness", (0, 1)), ("loudness", (-60, 0)),
   ("duration_ms", (30000, 600000))]

/-- Dict lookup in `self.normalization_ranges`: `none` models
`field_name not in self.normalization_ranges`. -/
def normalization_ranges (field : String) : Option (ℚ × ℚ) :=
  (normalization_ranges_list.find? (fun p => p.1 == field)).map (fun p => p.2)

/-- Model of `normalize_value` (data_encoder.py lines 59-81): clip to the declared
range, then map linearly onto [0,1]; fields with no declared range pass
through unchanged. -/
def normalize_value (value : ℚ) (field_name : String) : ℚ :=
  match normalization_ranges field_name with
  | none => value
  | some p => (max p.1 (min p.2 value) - p.1) / (p.2 - p.1)

/-- Model of `denormalize_value` (data_encoder.py lines 83-102): the inverse linear
map back onto the declared range; fields with no declared range pass
through unchanged. -/
def denormalize_value (normalized_value : ℚ) (field_name : String) : ℚ :=
  match normalization_ranges field_name with
  | none => normalized_value
  | some p => normalized_value * (p.2 - p.1) + p.1

/-- Model of `encode_genre` (data_encoder.py lines 104-119): start from the all-zero
vector of the mapping's width and set index `genre_mapping[genre]` to 1.0
when the label is present; unknown labels leave the vector all zero. -/
def encode_genre (genre : String) : List ℚ :=
  let vector := List.replicate genre_mapping.length (0 : ℚ)
  match genre_mapping.find? (fun p => p.1 == genre) with
  | some p => vector.set p.2 1
  | none => vector

/-- Python `max(v)` over a list of floats: left fold of the binary max over
the elements.  Python raises ValueError on the empty list; the value at `[]`
here is junk and every theorem about it carries a nonemptiness hypothesis. -/
def list_max : List ℚ → ℚ
  | [] => 0
  | x :: xs => xs.foldl max x

/-- Python `v.index(a)`: index of the first occurrence of `a` in `v`.
Python raises ValueError when `a` is absent; here the value is then the
list's length (junk), and the theorems below only use present elements. -/
def index_of (a : ℚ) : List ℚ → Nat
  | [] => 0
  | x :: xs => if x = a then 0 else index_of a xs + 1

/-- Model of `decode_genre` (data_encoder.py lines 121-137): take the index of the
(first) maximum component, then scan `genre_mapping` in insertion order for
the genre with that index; fall through to "Unknown". -/
def decode_genre (one_hot_vector : List ℚ) : String :=
  let max_index := index_of (list_max one_hot_vector) one_hot_vector
  match genre_mapping.find? (fun p => p.2 == max_index) with
  | some p => p.1
  | none => "Unknown"

/-- Model of `encode_period` (data_encoder.py lines 139-154): same one-hot scheme as
`encode_genre` but against `period_mapping`. -/
def encode_period (period : String) : List ℚ :=
  let vector := List.replicate period_mapping.length (0 : ℚ)
  match period_mapping.find? (fun p => p.1 == period) with
  | some p => vector.set p.2 1
  | none => vector

/-! ## data_encoder.py : records and feature vectors -/

/-- A raw input record (the Python dict passed to `encode_music_data`):
every relevant key is optional, `none` modelling an absent key. -/
structure MusicData where
  revenue : Option ℚ := none
  song_count : Option ℚ := none
  danceability : Option ℚ := none
  energy : Option ℚ := none
  valence : Option ℚ := none
  tempo : Option ℚ := none
  acousticness : Option ℚ := none
  instrumentalness : Option ℚ := none
  liveness : Option ℚ := none
  speechiness : Option ℚ := none
  loudness : Option ℚ := none
  duration_ms : Option ℚ := none
  genre : Option String := none
  period : Option String := none

/-- The encoded dict produced by `encode_music_data` (metadata aside):
each key is present exactly when it was present in the input dict. -/
structure EncodedData where
  revenue : Option (List ℚ)
  song_count : Option (List ℚ)
  danceability : Option (List ℚ)
  energy : Option (List ℚ)
  valence : Option (List ℚ)
  tempo : Option (List ℚ)
  acousticness : Option (List ℚ)
  instrumentalness : Option (List ℚ)
  liveness : Option (List ℚ)
  speechiness : Option (List ℚ)
  loudness : Option (List ℚ)
  duration_ms : Option (List ℚ)
  genre : Option (List ℚ)
  period : Option (List ℚ)

/-- One numeric entry of `encode_music_data`: when the field is present,
`encoded_data[field] = [normalize_value(value, field)]` (a singleton list). -/
def normField (o : Option ℚ) (field : String) : Option (List ℚ) :=
  o.map (fun v => [normalize_value v field])

/-- Model of `encode_music_data` (data_encoder.py lines 156-193), minus the cleartext
metadata block, which no verified claim concerns. -/
def encode_music_data (md : MusicData) : EncodedData where
  revenue := normField md.revenue "revenue"
  song_count := normField md.song_count "song_count"
  danceability := normField md.danceability "danceability"
  energy := normField md.energy "energy"
  valence := normField md.valence "valence"
  tempo := normField md.tempo "tempo"
  acousticness := normField md.acousticness "acousticness"
  instrumentalness := normField md.instrumentalness "instrumentalness"
  liveness := normField md.liveness "liveness"
  speechiness := normField md.speechiness "speechiness"
  loudness := normField md.loudness "loudness"
  duration_ms := normField md.duration_ms "duration_ms"
  genre := md.genre.map encode_genre
  period := md.period.map encode_period

/-- One iteration of the `feature_order` loop in `create_feature_vector`:
`extend(encoded_data[feature])` when the key is present, else `append(0.0)`. -/
def fslot : Option (List ℚ) → List ℚ
  | some l => l
  | none => [0]

/-- Model of `create_feature_vector` (data_encoder.py lines 237-273): the ten scalar
features in `feature_order`, then the genre one-hot block (zeros when the
`genre` key is absent), then the period one-hot block likewise. -/
def create_feature_vector (md : MusicData) : List ℚ :=
  let e := encode_music_data md
  fslot e.danceability ++ fslot e.energy ++ fslot e.valence ++ fslot e.tempo ++
  fslot e.acousticness ++ fslot e.instrumentalness ++ fslot e.liveness ++
  fslot e.speechiness ++ fslot e.loudness ++ fslot e.duration_ms ++
  e.genre.getD (List.replicate genre_mapping.length 0) ++
  e.period.getD (List.replicate period_mapping.length 0)

/-! ## he_engine.py : HEEngine -/

/-- The two failure modes the adapter raises as ValueError:
capacity overflow in `encrypt_data` and the empty list in
`calculate_encrypted_sum`. -/
inductive HEError where
  | capacityExceeded
  | emptyInput
deriving DecidableEq

/-- A ciphertext, modelled exactly by the packed message it encrypts:
one complex slot per plaintext slot. -/
structure Ciphertext where
  slots : List Cx
deriving DecidableEq

/-- Model of `self.num_slots = 2 ** log_slots` (he_engine.py line 30). -/
def num_slots (log_slots : Nat) : Nat := 2 ^ log_slots

/-- Model of `encrypt_data` (he_engine.py lines 58-84): reject data longer than the
slot count, otherwise zero-pad to the slot count and pack each value as the
real part of a complex slot. -/
def encrypt_data (log_slots : Nat) (data : List ℚ) : Except HEError Ciphertext :=
  if data.length > num_slots log_slots then .error .capacityExceeded
  else .ok ⟨(data ++ List.replicate (num_slots log_slots - data.length) 0).map Cx.ofReal⟩

/-- Model of `decrypt_data` (he_engine.py lines 86-109).  The Python default is
`size=None` and the guard is `actual_size = size if size else self.num_slots`,
so both `None` and the falsy `0` select the full slot count.  The loop reads
`message[i].real` for `i < actual_size`, discarding imaginary parts. -/
def decrypt_data (log_slots : Nat) (c : Ciphertext) (size : Option Nat) : List ℚ :=
  let actual_size := match size with
    | some n => if n = 0 then num_slots log_slots else n
    | none => num_slots log_slots
  (List.range actual_size).map (fun i => (c.slots.getD i ⟨0, 0⟩).re)

/-- Model of `add_encrypted` (he_engine.py lines 111-115): slotwise homomorphic
addition into a fresh ciphertext. -/
def add_encrypted (ctxt1 ctxt2 : Ciphertext) : Ciphertext :=
  ⟨List.zipWith Cx.add ctxt1.slots ctxt2.slots⟩

/-- Model of `multiply_by_constant` (he_engine.py lines 123-127): slotwise
multiplication by `complex(constant)` into a fresh ciphertext. -/
def multiply_by_constant (ctxt : Ciphertext) (constant : ℚ) : Ciphertext :=
  ⟨ctxt.slots.map (fun a => Cx.mul a (Cx.ofReal constant))⟩

/-- The loop of `calculate_encrypted_sum`:
`result = list[0]; for i in range(1, len): result = add(result, list[i])`. -/
def sum_fold (result : Ciphertext) : List Ciphertext → Ciphertext
  | [] => result
  | y :: ys => sum_fold (add_encrypted result y) ys

/-- Model of `calculate_encrypted_sum` (he_engine.py lines 135-153): ValueError on
the empty list, else the running addition starting from the first element. -/
def calculate_encrypted_sum (encrypted_list : List Ciphertext) : Except HEError Ciphertext :=
  match encrypted_list with
  | [] => .error .emptyInput
  | x :: xs => .ok (sum_fold x xs)

/-- Model of `calculate_encrypted_average` (he_engine.py lines 155-171): the
encrypted sum scaled by `1.0 / count`; the ValueError of the empty sum
propagates. -/
def calculate_encrypted_average (encrypted_list : List Ciphertext) : Except HEError Ciphertext :=
  match calculate_encrypted_sum encrypted_list with
  | .error e => .error e
  | .ok total_sum =>
      .ok (multiply_by_constant total_sum (1 / (encrypted_list.length : ℚ)))

/-- The inline normalization of `encrypt_revenue_data` (he_engine.py lines
193-202): revenue is `min(value / 100000000, 1.0)`, tempo is
`(value - 60) / 140`, every other field passes through unchanged. -/
def revenue_data_normalize (field : String) (value : ℚ) : ℚ :=
  if field = "revenue" then min (value / 100000000) 1
  else if field = "tempo" then (value - 60) / 140
  else value

/-- The encrypted dict built by `encrypt_revenue_data` (one entry per
numeric field present in the input). -/
structure EncryptedRevenue where
  revenue : Option (Except HEError Ciphertext)
  danceability : Option (Except HEError Ciphertext)
  energy : Option (Except HEError Ciphertext)
  valence : Option (Except HEError Ciphertext)
  tempo : Option (Except HEError Ciphertext)

/-- Model of `encrypt_revenue_data` (he_engine.py lines 173-207): for each of the
five tracked numeric fields present in the record, normalize inline and
encrypt the singleton list. -/
def encrypt_revenue_data (log_slots : Nat) (revenue_data : MusicData) : EncryptedRevenue where
  revenue := revenue_data.revenue.map
    (fun v => encrypt_data log_slots [revenue_data_normalize "revenue" v])
  danceability := revenue_data.danceability.map
    (fun v => encrypt_data log_slots [revenue_data_normalize "danceability" v])
  energy := revenue_data.energy.map
    (fun v => encrypt_data log_slots [revenue_data_normalize "energy" v])
  valence := revenue_data.valence.map
    (fun v => encrypt_data log_slots [revenue_data_normalize "valence" v])
  tempo := revenue_data.tempo.map
    (fun v => encrypt_data log_slots [revenue_data_normalize "tempo" v])

/-! ## Helper lemmas -/

/-- Every declared normalization range is nondegenerate: min strictly below max. -/
lemma ranges_lt (field : String) (mn mx : ℚ)
    (h : normalization_ranges field = some (mn, mx)) : mn < mx := by
  unfold normalization_ranges at h
  cases hf : normalization_ranges_list.find? (fun p => p.1 == field) with
  | none => rw [hf] at h; exact Option.noConfusion h
  | some p =>
      rw [hf] at h
      have hmem := List.mem_of_find?_eq_some hf
      rw [Option.map_some', Option.some.injEq] at h
      fin_cases hmem <;> (injection h with h1 h2; subst h1; subst h2; norm_num)

/-- Denormalizing a normalized value recovers exactly the clipped input. -/
lemma denorm_norm (field : String) (mn mx v : ℚ)
    (h : normalization_ranges field = some (mn, mx)) :
    denormalize_value (normalize_value v field) field = max mn (min mx v) := by
  have hlt := ranges_lt field mn mx h
  have hne : mx - mn ≠ 0 := sub_ne_zero_of_ne (ne_of_gt hlt)
  simp only [normalize_value, denormalize_value, h]
  rw [div_mul_cancel₀ _ hne]
  ring

/-- C2: for every declared field, normalize clips to [min,max] then maps
linearly to [0,1] and denormalize inverts it exactly, so the round trip
returns in-range inputs unchanged and clamps out-of-range inputs to the
violated boundary (revenue -100 normalizes to 0 and denormalizes to 0);
undeclared fields pass through both functions unchanged. -/
theorem C2_normalize_denormalize_roundtrip :
    (∀ field mn mx v, normalization_ranges field = some (mn, mx) →
        mn ≤ v → v ≤ mx →
        denormalize_value (normalize_value v field) field = v) ∧
    (∀ field mn mx v, normalization_ranges field = some (mn, mx) →
        v < mn →
        denormalize_value (normalize_value v field) field = mn) ∧
    (∀ field mn mx v, normalization_ranges field = some (mn, mx) →
        mx < v →
        denormalize_value (normalize_value v field) field = mx) ∧
    (∀ field v, normalization_ranges field = none →
        normalize_value v field = v ∧ denormalize_value v field = v) ∧
    normalize_value (-100) "revenue" = 0 ∧
    denormalize_value 0 "revenue" = 0 := by
  refine ⟨?_, ?_, ?_, ?_, ?_, ?_⟩
  · intro field mn mx v h h1 h2
    rw [denorm_norm field mn mx v h, min_eq_right h2, max_eq_right h1]
  · intro field mn mx v h hv
    have hlt := ranges_lt field mn mx h
    rw [denorm_norm field mn mx v h, min_eq_right (le_of_lt (lt_trans hv hlt)),
      max_eq_left (le_of_lt hv)]
  · intro field mn mx v h hv
    have hlt := ranges_lt field mn mx h
    rw [denorm_norm field mn mx v h, min_eq_left (le_of_lt hv),
      max_eq_right (le_of_lt hlt)]
  · intro field v h
    constructor <;> simp [normalize_value, denormalize_value, h]
  · have h1 : normalize_value (-100) "revenue" =
        (max 0 (min 100000000 (-100 : ℚ)) - 0) / (100000000 - 0) := rfl
    rw [h1, min_eq_right (by norm_num : (-100 : ℚ) ≤ 100000000),
      max_eq_left (by norm_num : (-100 : ℚ) ≤ 0)]
    norm_num
  · have h1 : denormalize_value 0 "revenue" = 0 * (100000000 - 0 : ℚ) + 0 := rfl
    rw [h1]
    norm_num

/-- Witness for C2 at the tempo field: the in-range input 130 round-trips
to itself and the out-of-range input 300 round-trips to the boundary 200. -/
theorem C2_witness :
    normalization_ranges "tempo" = some (60, 200) ∧
    denormalize_value (normalize_value 130 "tempo") "tempo" = 130 ∧
    denormalize_value (normalize_value 300 "tempo") "tempo" = 200 :=
  ⟨rfl,
   C2_normalize_denormalize_roundtrip.1 "tempo" 60 200 130 rfl (by norm_num) (by norm_num),
   C2_normalize_denormalize_roundtrip.2.2.1 "tempo" 60 200 300 rfl (by norm_num)⟩

/-- C10 counterexample: at revenue 200000000, which lies outside the
declared range [0, 100000000], the inline normalization of
encrypt_revenue_data and the table-driven normalize_value agree (both clamp
to 1), contradicting the claim that the two diverge everywhere outside the
in-range regions. -/
theorem C10_counterexample :
    revenue_data_normalize "revenue" 200000000 =
      normalize_value 200000000 "revenue" ∧
    ¬ ((200000000 : ℚ) ≤ 100000000) := by
  constructor
  · have h1 : revenue_data_normalize "revenue" 200000000 =
        min ((200000000 : ℚ) / 100000000) 1 := rfl
    have h2 : normalize_value 200000000 "revenue" =
        (max 0 (min 100000000 (200000000 : ℚ)) - 0) / (100000000 - 0) := rfl
    rw [h1, h2, min_eq_right (by norm_num : (1 : ℚ) ≤ 200000000 / 100000000),
      min_eq_left (by norm_num : (100000000 : ℚ) ≤ 200000000),
      max_eq_right (by norm_num : (0 : ℚ) ≤ 100000000)]
    norm_num
  · norm_num

/-- C10 (amended): the inline normalization in encrypt_revenue_data agrees
exactly with normalize_value for revenue in [0, 100000000] and tempo in
[60, 200]; for negative revenue it goes negative while normalize_value
clips to 0, and for tempo outside [60, 200] it leaves [0,1] while
normalize_value clips to the boundary; for revenue above the maximum both
produce exactly 1. -/
theorem C10_revenue_normalization_refinement :
    (∀ v : ℚ, 0 ≤ v → v ≤ 100000000 →
        revenue_data_normalize "revenue" v = normalize_value v "revenue") ∧
    (∀ v : ℚ, 60 ≤ v → v ≤ 200 →
        revenue_data_normalize "tempo" v = normalize_value v "tempo") ∧
    (∀ v : ℚ, v < 0 →
        revenue_data_normalize "revenue" v < 0 ∧ normalize_value v "revenue" = 0) ∧
    (∀ v : ℚ, 100000000 < v →
        revenue_data_normalize "revenue" v = 1 ∧ normalize_value v "revenue" = 1) ∧
    (∀ v : ℚ, v < 60 →
        revenue_data_normalize "tempo" v < 0 ∧ normalize_value v "tempo" = 0) ∧
    (∀ v : ℚ, 200 < v →
        1 < revenue_data_normalize "tempo" v ∧ normalize_value v "tempo" = 1) := by
  have hrev : ∀ v : ℚ, revenue_data_normalize "revenue" v = min (v / 100000000) 1 :=
    fun v => rfl
  have htem : ∀ v : ℚ, revenue_data_normalize "tempo" v = (v - 60) / 140 :=
    fun v => rfl
  have hnrev : ∀ v : ℚ, normalize_value v "revenue" =
      (max 0 (min 100000000 v) - 0) / (100000000 - 0) := fun v => rfl
  have hntem : ∀ v : ℚ, normalize_value v "tempo" =
      (max 60 (min 200 v) - 60) / (200 - 60) := fun v => rfl
  refine ⟨?_, ?_, ?_, ?_, ?_, ?_⟩
  · intro v h0 h1
    have hle : v / 100000000 ≤ 1 := (div_le_one (by norm_num)).mpr h1
    rw [hrev, hnrev, min_eq_right h1, max_eq_right h0, min_eq_left hle]
    norm_num
  · intro v h0 h1
    rw [htem, hntem, min_eq_right h1, max_eq_right h0]
    norm_num
  · intro v hv
    rw [hrev, hnrev, min_eq_right (by linarith : v ≤ (100000000 : ℚ)),
      max_eq_left (le_of_lt hv)]
    constructor
    · have hneg : v / 100000000 < 0 := div_neg_of_neg_of_pos hv (by norm_num)
      exact lt_of_le_of_lt (min_le_left _ _) hneg
    · norm_num
  · intro v hv
    have hdiv : (1 : ℚ) ≤ v / 100000000 := by
      rw [le_div_iff₀ (by norm_num : (0 : ℚ) < 100000000)]
      linarith
    rw [hrev, hnrev, min_eq_left (le_of_lt hv), min_eq_right hdiv,
      max_eq_right (by norm_num : (0 : ℚ) ≤ 100000000)]
    constructor
    · rfl
    · norm_num
  · intro v hv
    rw [htem, hntem, min_eq_right (by linarith : v ≤ (200 : ℚ)),
      max_eq_left (le_of_lt hv)]
    constructor
    · exact div_neg_of_neg_of_pos (by linarith) (by norm_num)
    · norm_num
  · intro v hv
    have hdiv : (1 : ℚ) < (v - 60) / 140 := by
      rw [lt_div_iff₀ (by norm_num : (0 : ℚ) < 140)]
      linarith
    rw [htem, hntem, min_eq_left (le_of_lt hv),
      max_eq_right (by norm_num : (60 : ℚ) ≤ 200)]
    constructor
    · exact hdiv
    · norm_num

/-- C4: encrypt_data fails with the capacity error exactly when the input
is longer than num_slots = 2^log_slots; otherwise it succeeds with a
ciphertext of exactly num_slots slots whose leading slots carry the data as
real parts and whose remaining slots are zero padding. -/
theorem C4_encrypt_capacity :
    (∀ (ls : Nat) (data : List ℚ), num_slots ls < data.length →
        encrypt_data ls data = .error .capacityExceeded) ∧
    (∀ (ls : Nat) (data : List ℚ), data.length ≤ num_slots ls →
        ∃ c, encrypt_data ls data = .ok c ∧
          c.slots.length = num_slots ls ∧
          (∀ i, i < data.length → c.slots[i]? = (data[i]?).map Cx.ofReal) ∧
          (∀ i, data.length ≤ i → i < num_slots ls →
            c.slots[i]? = some (Cx.ofReal 0))) := by
  constructor
  · intro ls data h
    simp [encrypt_data, h]
  · intro ls data h
    have hnot : ¬ (data.length > num_slots ls) := not_lt.mpr h
    refine ⟨⟨(data ++ List.replicate (num_slots ls - data.length) 0).map Cx.ofReal⟩,
      ?_, ?_, ?_, ?_⟩
    · simp [encrypt_data, hnot]
    · simp only [List.length_map, List.length_append, List.length_replicate]
      omega
    · intro i hi
      dsimp only
      rw [List.getElem?_map, List.getElem?_append, if_pos hi]
    · intro i hge hlt
      have hrep : i - data.length < num_slots ls - data.length := by omega
      dsimp only
      rw [List.getElem?_map, List.getElem?_append, if_neg (by omega),
        List.getElem?_replicate, if_pos hrep]
      rfl

/-- Witness for C4 with two slots (log_slots = 1): a three-element vector
is rejected with the capacity error and a one-element vector succeeds. -/
theorem C4_witness :
    encrypt_data 1 [1, 2, 3] = .error .capacityExceeded ∧
    ∃ c, encrypt_data 1 [5] = .ok c ∧
      c.slots.length = num_slots 1 ∧
      (∀ i, i < [(5 : ℚ)].length → c.slots[i]? = ([(5 : ℚ)][i]?).map Cx.ofReal) ∧
      (∀ i, [(5 : ℚ)].length ≤ i → i < num_slots 1 →
        c.slots[i]? = some (Cx.ofReal 0)) :=
  ⟨C4_encrypt_capacity.1 1 [1, 2, 3] (by simp [num_slots]),
   C4_encrypt_capacity.2 1 [5] (by simp [num_slots])⟩

/-- C3 counterexample: on a two-slot engine, a requested count of 0
returns num_slots = 2 elements, not 0, because the guard
`size if size else self.num_slots` treats 0 as falsy. -/
theorem C3_counterexample :
    (decrypt_data 1 ⟨[⟨0, 0⟩, ⟨0, 0⟩]⟩ (some 0)).length ≠ 0 := by
  simp [decrypt_data, num_slots]

/-- C3 (amended): for every count with 1 ≤ count ≤ num_slots, decrypt_data
returns exactly count elements, the i-th being the real part of the i-th
decrypted slot (imaginary parts always discarded); a count of 0, like None,
instead returns the full num_slots elements. -/
theorem C3_decrypt_count :
    ∀ (ls : Nat) (c : Ciphertext) (n : Nat), 1 ≤ n → n ≤ num_slots ls →
      ((decrypt_data ls c (some n)).length = n ∧
       ∀ i, i < n →
         (decrypt_data ls c (some n))[i]? = some (c.slots.getD i ⟨0, 0⟩).re) ∧
      (decrypt_data ls c none).length = num_slots ls ∧
      (decrypt_data ls c (some 0)).length = num_slots ls := by
  intro ls c n h1 h2
  have hn : n ≠ 0 := Nat.one_le_iff_ne_zero.mp h1
  refine ⟨⟨?_, ?_⟩, ?_, ?_⟩
  · simp [decrypt_data, hn]
  · intro i hi
    simp [decrypt_data, hn, List.getElem?_map, List.getElem?_range, hi]
  · simp [decrypt_data]
  · simp [decrypt_data]

/-- Witness for C3 (amended): decrypting two slots of a two-slot ciphertext
yields both real parts in order and drops the imaginary parts. -/
theorem C3_witness :
    (decrypt_data 1 ⟨[⟨3, 4⟩, ⟨5, 6⟩]⟩ (some 2)).length = 2 ∧
    (decrypt_data 1 ⟨[⟨3, 4⟩, ⟨5, 6⟩]⟩ (some 2))[0]? = some 3 ∧
    (decrypt_data 1 ⟨[⟨3, 4⟩, ⟨5, 6⟩]⟩ (some 2))[1]? = some 5 := by
  have h := C3_decrypt_count 1 ⟨[⟨3, 4⟩, ⟨5, 6⟩]⟩ 2 (by norm_num)
    (by norm_num [num_slots])
  exact ⟨h.1.1, h.1.2 0 (by norm_num), h.1.2 1 (by norm_num)⟩

/-- The running-addition loop of calculate_encrypted_sum is the left fold
of add_encrypted. -/
lemma sum_fold_eq_foldl (ys : List Ciphertext) :
    ∀ r : Ciphertext, sum_fold r ys = ys.foldl add_encrypted r := by
  induction ys with
  | nil => intro r; rfl
  | cons y ys ih => intro r; simp only [sum_fold, List.foldl]; exact ih _

/-- C6: calculate_encrypted_sum of a nonempty list is the left fold of the
homomorphic add over the list starting from its first element, and the
empty list fails with the explicit EmptyInput error, never a default
ciphertext. -/
theorem C6_sum_spec :
    calculate_encrypted_sum [] = .error .emptyInput ∧
    ∀ (x : Ciphertext) (xs : List Ciphertext),
      calculate_encrypted_sum (x :: xs) = .ok (xs.foldl add_encrypted x) := by
  refine ⟨rfl, ?_⟩
  intro x xs
  simp only [calculate_encrypted_sum, sum_fold_eq_foldl]

/-- C7: for every nonempty list, calculate_encrypted_average is exactly
multiply_by_constant applied to the encrypted sum with constant
1 / length. -/
theorem C7_average_spec :
    ∀ (x : Ciphertext) (xs : List Ciphertext),
      ∃ s, calculate_encrypted_sum (x :: xs) = .ok s ∧
        calculate_encrypted_average (x :: xs) =
          .ok (multiply_by_constant s (1 / (((x :: xs).length : ℚ)))) :=
  fun x xs => ⟨sum_fold x xs, rfl, rfl⟩

/-! ## list_max / index_of facts -/

/-- The seed of a max fold never exceeds the result. -/
lemma foldl_max_le_init (xs : List ℚ) : ∀ a : ℚ, a ≤ xs.foldl max a := by
  induction xs with
  | nil => intro a; exact le_refl a
  | cons x xs ih => intro a; exact le_trans (le_max_left a x) (ih (max a x))

/-- Every element of the folded list is bounded by the max fold. -/
lemma foldl_max_le_mem (xs : List ℚ) : ∀ (a x : ℚ), x ∈ xs → x ≤ xs.foldl max a := by
  induction xs with
  | nil => intro a x hx; exact absurd hx (List.not_mem_nil x)
  | cons y ys ih =>
      intro a x hx
      rcases List.mem_cons.mp hx with h | h
      · subst h; exact le_trans (le_max_right a x) (foldl_max_le_init ys _)
      · exact ih _ x h

/-- A max fold yields either the seed or some element of the list. -/
lemma foldl_max_cases (xs : List ℚ) :
    ∀ a : ℚ, xs.foldl max a = a ∨ xs.foldl max a ∈ xs := by
  induction xs with
  | nil => intro a; exact Or.inl rfl
  | cons y ys ih =>
      intro a
      rcases ih (max a y) with h | h
      · rcases max_cases a y with ⟨he, _⟩ | ⟨he, _⟩
        · exact Or.inl (by rw [List.foldl_cons, h, he])
        · exact Or.inr (by rw [List.foldl_cons, h, he]; exact List.mem_cons_self y ys)
      · exact Or.inr (by rw [List.foldl_cons]; exact List.mem_cons_of_mem y h)

/-- Python max of a nonempty list bounds every element. -/
lemma le_list_max (v : List ℚ) (hv : v ≠ []) : ∀ x ∈ v, x ≤ list_max v := by
  match v with
  | x :: xs =>
      intro y hy
      rcases List.mem_cons.mp hy with h | h
      · subst h; exact foldl_max_le_init xs y
      · exact foldl_max_le_mem xs x y h

/-- Python max of a nonempty list is one of its elements. -/
lemma list_max_mem (v : List ℚ) (hv : v ≠ []) : list_max v ∈ v := by
  match v with
  | x :: xs =>
      rcases foldl_max_cases xs x with h | h
      · rw [list_max, h]; exact List.mem_cons_self x xs
      · rw [list_max]; exact List.mem_cons_of_mem x h

/-- Python v.index(a) is the unique position whose earlier positions all
miss a. -/
lemma index_of_spec (a : ℚ) (v : List ℚ) :
    ∀ k : Nat, v[k]? = some a → (∀ j, j < k → v[j]? ≠ some a) →
      index_of a v = k := by
  induction v with
  | nil => intro k hk _; simp at hk
  | cons x xs ih =>
      intro k hk hmin
      cases k with
      | zero =>
          simp only [List.getElem?_cons_zero, Option.some.injEq] at hk
          simp [index_of, hk]
      | succ n =>
          have hx : ¬ (x = a) := fun he => hmin 0 (Nat.succ_pos n) (by simp [he])
          have hxs : index_of a xs = n :=
            ih n (by simpa using hk)
              (fun j hj hja => hmin (j + 1) (by omega) (by simpa using hja))
          simp [index_of, hx, hxs]

/-- Python v.index(a) of a present element lies within the list. -/
lemma index_of_lt_length (a : ℚ) (v : List ℚ) (h : a ∈ v) :
    index_of a v < v.length := by
  induction v with
  | nil => exact absurd h (List.not_mem_nil a)
  | cons x xs ih =>
      by_cases hx : x = a
      · simp [index_of, hx]
      · rcases List.mem_cons.mp h with h1 | h1
        · exact absurd h1.symm hx
        · simpa [index_of, hx] using ih h1

/-- Unknown genre labels encode to the all-zero vector. -/
lemma encode_genre_unknown (g : String)
    (h : genre_mapping.find? (fun p => p.1 == g) = none) :
    encode_genre g = List.replicate 8 0 := by
  simp only [encode_genre, h]
  rfl

/-- Unknown period labels encode to the all-zero vector. -/
lemma encode_period_unknown (s : String)
    (h : period_mapping.find? (fun p => p.1 == s) = none) :
    encode_period s = List.replicate 8 0 := by
  simp only [encode_period, h]
  rfl

/-- C5: decoding the one-hot encoding of every enumerated genre label
recovers the label exactly; and on every vector of the one-hot width,
decode_genre returns the genre whose index is the first position attaining
the maximum, so ties at the maximum resolve to the lowest tied index. -/
theorem C5_genre_roundtrip_tiebreak :
    (∀ g idx, (g, idx) ∈ genre_mapping → decode_genre (encode_genre g) = g) ∧
    (∀ (v : List ℚ) (m : ℚ) (k : Nat), v ≠ [] → v.length ≤ 8 →
      (∀ x ∈ v, x ≤ m) → m ∈ v →
      v[k]? = some m → (∀ j, j < k → v[j]? ≠ some m) →
      decode_genre v = (genre_mapping.map Prod.fst).getD k "Unknown") := by
  constructor
  · intro g idx hmem
    fin_cases hmem <;> decide
  · intro v m k hne h8 hub hmem hk hmin
    have hm : list_max v = m :=
      le_antisymm (hub _ (list_max_mem v hne)) (le_list_max v hne m hmem)
    have hidx : index_of (list_max v) v = k := by
      rw [hm]; exact index_of_spec m v k hk hmin
    have hkl : k < v.length := by
      by_contra hc
      push_neg at hc
      rw [List.getElem?_eq_none hc] at hk
      exact Option.noConfusion hk
    have hk8 : k < 8 := lt_of_lt_of_le hkl h8
    simp only [decode_genre]
    rw [hidx]
    interval_cases k <;> decide

/-- Witness for C5: the enumerated label Rock round-trips, and the
two-way tie [1, 1] decodes to Pop, the genre at the lowest tied index. -/
theorem C5_witness :
    decode_genre (encode_genre "Rock") = "Rock" ∧
    decode_genre [(1 : ℚ), 1] = (genre_mapping.map Prod.fst).getD 0 "Unknown" :=
  ⟨C5_genre_roundtrip_tiebreak.1 "Rock" 2 (by decide),
   C5_genre_roundtrip_tiebreak.2 [(1 : ℚ), 1] 1 0 (by decide) (by decide)
     (by decide) (by decide) (by decide) (fun j hj => by omega)⟩

/-- C8: labels outside the fixed enumerations encode to the all-zero
vector rather than erroring, and every enumerated genre and period label
encodes to the one-hot vector with a single 1.0 at its index. -/
theorem C8_unknown_label_zero_vector :
    (∀ g, genre_mapping.find? (fun p => p.1 == g) = none →
        encode_genre g = List.replicate 8 0) ∧
    (∀ s, period_mapping.find? (fun p => p.1 == s) = none →
        encode_period s = List.replicate 8 0) ∧
    encode_genre "Pop" = [1, 0, 0, 0, 0, 0, 0, 0] ∧
    encode_genre "Hip-Hop" = [0, 1, 0, 0, 0, 0, 0, 0] ∧
    encode_genre "Rock" = [0, 0, 1, 0, 0, 0, 0, 0] ∧
    encode_genre "Electronic" = [0, 0, 0, 1, 0, 0, 0, 0] ∧
    encode_genre "R&B" = [0, 0, 0, 0, 1, 0, 0, 0] ∧
    encode_genre "Country" = [0, 0, 0, 0, 0, 1, 0, 0] ∧
    encode_genre "Jazz" = [0, 0, 0, 0, 0, 0, 1, 0] ∧
    encode_genre "Classical" = [0, 0, 0, 0, 0, 0, 0, 1] ∧
    encode_period "2024-Q1" = [1, 0, 0, 0, 0, 0, 0, 0] ∧
    encode_period "2024-Q2" = [0, 1, 0, 0, 0, 0, 0, 0] ∧
    encode_period "2024-Q3" = [0, 0, 1, 0, 0, 0, 0, 0] ∧
    encode_period "2024-Q4" = [0, 0, 0, 1, 0, 0, 0, 0] ∧
    encode_period "2023-Q1" = [0, 0, 0, 0, 1, 0, 0, 0] ∧
    encode_period "2023-Q2" = [0, 0, 0, 0, 0, 1, 0, 0] ∧
    encode_period "2023-Q3" = [0, 0, 0, 0, 0, 0, 1, 0] ∧
    encode_period "2023-Q4" = [0, 0, 0, 0, 0, 0, 0, 1] :=
  ⟨encode_genre_unknown, encode_period_unknown, by decide⟩

/-- Witness for C8 at the unknown labels Trot and 2022-Q1: both encode to
the all-zero vector. -/
theorem C8_witness :
    encode_genre "Trot" = List.replicate 8 0 ∧
    encode_period "2022-Q1" = List.replicate 8 0 :=
  ⟨C8_unknown_label_zero_vector.1 "Trot" (by decide),
   C8_unknown_label_zero_vector.2.1 "2022-Q1" (by decide)⟩

/-- C9: on every nonempty vector of length at most 8, decode_genre returns
one of the eight enumerated genre names and never the Unknown fallback; the
all-zero vector decodes to Pop, and hence every unknown label's encoding
decodes to Pop. -/
theorem C9_decode_never_unknown :
    (∀ v : List ℚ, v ≠ [] → v.length ≤ 8 →
        decode_genre v ∈ genre_mapping.map Prod.fst ∧ decode_genre v ≠ "Unknown") ∧
    decode_genre (List.replicate 8 0) = "Pop" ∧
    (∀ g, genre_mapping.find? (fun p => p.1 == g) = none →
        decode_genre (encode_genre g) = "Pop") := by
  have hrep : decode_genre (List.replicate 8 0) = "Pop" := by decide
  refine ⟨?_, hrep, ?_⟩
  · intro v hne h8
    have hmem := list_max_mem v hne
    have hkl := index_of_lt_length _ v hmem
    have hk8 : index_of (list_max v) v < 8 := lt_of_lt_of_le hkl h8
    simp only [decode_genre]
    generalize hgen : index_of (list_max v) v = k at hk8
    interval_cases k <;> exact ⟨by decide, by decide⟩
  · intro g h
    rw [encode_genre_unknown g h]
    exact hrep

/-- Witness for C9: the vector [0, 5] decodes to an enumerated genre, and
the unknown label Ballad encodes then decodes to Pop. -/
theorem C9_witness :
    (decode_genre [(0 : ℚ), 5] ∈ genre_mapping.map Prod.fst ∧
      decode_genre [(0 : ℚ), 5] ≠ "Unknown") ∧
    decode_genre (encode_genre "Ballad") = "Pop" :=
  ⟨C9_decode_never_unknown.1 [(0 : ℚ), 5] (by decide) (by decide),
   C9_decode_never_unknown.2.2 "Ballad" (by decide)⟩

/-! ## Feature-vector facts -/

/-- Each scalar slot of the feature vector is a singleton: the normalized
value when the field is present, else the 0.0 default. -/
lemma fslot_normField (o : Option ℚ) (f : String) :
    fslot (normField o f) = [(o.map (fun v => normalize_value v f)).getD 0] := by
  cases o <;> rfl

/-- Genre one-hot vectors always have width 8. -/
lemma encode_genre_length (g : String) : (encode_genre g).length = 8 := by
  cases h : genre_mapping.find? (fun p => p.1 == g) <;>
    (simp only [encode_genre, h, List.length_set, List.length_replicate]; decide)

/-- Period one-hot vectors always have width 8. -/
lemma encode_period_length (s : String) : (encode_period s).length = 8 := by
  cases h : period_mapping.find? (fun p => p.1 == s) <;>
    (simp only [encode_period, h, List.length_set, List.length_replicate]; decide)

/-- The genre block of the feature vector has width 8 whether or not the
genre key is present. -/
lemma genre_block_length (o : Option String) :
    ((o.map encode_genre).getD (List.replicate genre_mapping.length 0)).length = 8 := by
  cases o with
  | none => rfl
  | some g => simpa using encode_genre_length g

/-- The period block of the feature vector has width 8 whether or not the
period key is present. -/
lemma period_block_length (o : Option String) :
    ((o.map encode_period).getD (List.replicate period_mapping.length 0)).length = 8 := by
  cases o with
  | none => rfl
  | some s => simpa using encode_period_length s

/-- C1 counterexample: the feature vector of the empty record has
10 + 8 + 8 = 26 entries, not the 18 the claim names (its own breakdown,
10 scalar + 8 category + 8 period, already sums to 26). -/
theorem C1_counterexample : (create_feature_vector {}).length ≠ 18 := by
  decide

/-- C1 (amended): create_feature_vector always returns exactly 26 entries
(10 scalar slots, 8 genre slots, 8 period slots) whatever subset of keys
the record carries; the all-absent record yields the all-zero vector, and
each absent scalar field contributes 0.0 at its slot. -/
theorem C1_feature_vector_length :
    (∀ md : MusicData, (create_feature_vector md).length = 26) ∧
    create_feature_vector {} = List.replicate 26 0 ∧
    (∀ md : MusicData,
      (md.danceability = none → (create_feature_vector md)[0]? = some 0) ∧
      (md.energy = none → (create_feature_vector md)[1]? = some 0) ∧
      (md.valence = none → (create_feature_vector md)[2]? = some 0) ∧
      (md.tempo = none → (create_feature_vector md)[3]? = some 0) ∧
      (md.acousticness = none → (create_feature_vector md)[4]? = some 0) ∧
      (md.instrumentalness = none → (create_feature_vector md)[5]? = some 0) ∧
      (md.liveness = none → (create_feature_vector md)[6]? = some 0) ∧
      (md.speechiness = none → (create_feature_vector md)[7]? = some 0) ∧
      (md.loudness = none → (create_feature_vector md)[8]? = some 0) ∧
      (md.duration_ms = none → (create_feature_vector md)[9]? = some 0)) := by
  refine ⟨?_, by decide, ?_⟩
  · intro md
    simp only [create_feature_vector, encode_music_data, List.length_append,
      fslot_normField, genre_block_length, period_block_length,
      List.length_singleton]
  · intro md
    refine ⟨?_, ?_, ?_, ?_, ?_, ?_, ?_, ?_, ?_, ?_⟩ <;>
      (intro h
       simp [create_feature_vector, encode_music_data, fslot_normField, h,
         List.append_assoc, List.singleton_append, List.getElem?_cons_succ,
         List.getElem?_cons_zero])

/-- Witness for C1 at a record carrying only a tempo value: the vector
still has 18 entries and the absent danceability and duration slots hold
0.0. -/
theorem C1_witness :
    (create_feature_vector { tempo := some 130 }).length = 26 ∧
    (create_feature_vector { tempo := some 130 })[0]? = some 0 ∧
    (create_feature_vector { tempo := some 130 })[9]? = some 0 :=
  ⟨C1_feature_vector_length.1 { tempo := some 130 },
   (C1_feature_vector_length.2.2 { tempo := some 130 }).1 rfl,
   (C1_feature_vector_length.2.2 { tempo := some 130 }).2.2.2.2.2.2.2.2.2 rfl⟩

/-- Witness for C10: at the in-range revenue 5000000 both normalizations
agree, and at the out-of-range revenue -100 the inline normalization is
negative while normalize_value clips to 0. -/
theorem C10_witness :
    revenue_data_normalize "revenue" 5000000 = normalize_value 5000000 "revenue" ∧
    (revenue_data_normalize "revenue" (-100) < 0 ∧
      normalize_value (-100) "revenue" = 0) :=
  ⟨C10_revenue_normalization_refinement.1 5000000 (by norm_num) (by norm_num),
   C10_revenue_normalization_refinement.2.2.1 (-100) (by norm_num)⟩

end MusicHE
